import Mathlib

/-!
Verification of the HYSBackEnd repository (health-and-safety report backend).

The definitions below are a shallow embedding of the JavaScript source:

* `src/project/src/services/reportService.js` — `updateReport` (the observation
  reconciler), `createReport` (report-row construction), `deleteReport`;
* `src/project/src/utils/imageUtils.js` — `deleteImage`;
* the company controller referenced by `src/project/src/routes/companyRoutes.js`
  (the file `controllers/companyController.js` is not in the snapshot; the two
  company operations are modelled from the spec, as marked on their
  doc comments).

JavaScript values that can be a string or `undefined`/`null` are embedded as
`Option String`; the `x || y` coalescing idiom (which also treats the empty
string as absent) is embedded by `truthy`/`jsOr`.  The remote database is
embedded as an explicit list of rows, and every database or storage call made
by the reconciler is recorded in an operation trace (`DbOp`) in call order.
-/

/-- JavaScript truthiness for string-or-absent values: `undefined`, `null`
and `""` are falsy, every other string is truthy. -/
def truthy : Option String → Bool
  | none => false
  | some s => !(s == "")

/-- The JavaScript `a || b` coalescing idiom on string-or-absent values. -/
def jsOr (a b : Option String) : Option String :=
  if truthy a then a else b

/-- A persisted observation row (table `observations`): columns
`id`, `observation`, `risk_level`, `image_url` (nullable). -/
structure Observation where
  id : String
  observation : Option String
  risk_level : Option String
  image_url : Option String
  deriving Repr, DecidableEq

/-- One incoming edit entry of an update call (an element of the parsed
`observations` array in `reportService.updateReport`). -/
structure EditEntry where
  id : Option String
  observation : Option String
  riskLevel : Option String
  imageUrl : Option String
  newImage : Bool
  tempId : Option String
  deriving Repr, DecidableEq

/-- An uploaded multipart file, tagged with its form field name. -/
structure UploadedFile where
  fieldname : String
  path : String
  deriving Repr, DecidableEq

/-- One persistence/storage operation issued by the reconciler. -/
inductive DbOp where
  | updateObs (id : String) (observation risk_level image_url : Option String)
  | insertObs (row : Observation)
  | deleteObs (id : String)
  | removeBlob (url : String)
  deriving Repr, DecidableEq

/-- `existingObsMap[i]`: the first row with the given id (the recursion is
`List.find?` unfolded, so that proofs can unfold it structurally). -/
def findRow : List Observation → String → Option Observation
  | [], _ => none
  | r :: t, i => if r.id == i then some r else findRow t i

/-- Overwriting the three mutable columns of an observation row. -/
def patchRow (o rl iu : Option String) (r : Observation) : Observation :=
  { r with observation := o, risk_level := rl, image_url := iu }

/-- Effect on the observation table of
`supabase.from('observations').update({...}).eq('id', i)`. -/
def applyUpdate (rows : List Observation) (i : String)
    (o rl iu : Option String) : List Observation :=
  rows.map (fun r => if r.id == i then patchRow o rl iu r else r)

/-- The insert branch of the reconciler loop (`reportService.js` lines
276–298): resolve an image by the `image_new_<tempId>` field-name convention
(`tempId` defaulting to `Date.now()`, embedded as the opaque server timestamp
`now`), then insert a new row; the database-assigned id is embedded as
`"new-" ++ k` for a per-call counter `k`. -/
def newEntryImage (upload : String → String) (now : String)
    (files : List UploadedFile) (e : EditEntry) : Option String :=
  let key := "image_new_" ++ (jsOr e.tempId (some now)).getD now
  if !files.isEmpty then
    match files.find? (fun f => f.fieldname == key) with
    | some f => some (upload f.path)
    | none => none
  else none

/-- The row inserted for a new entry: the database-assigned id is embedded
as `"new-" ++ k` for the per-call counter `k`. -/
def newRow (upload : String → String) (now : String)
    (files : List UploadedFile) (k : Nat) (e : EditEntry) : Observation :=
  { id := "new-" ++ toString k
    observation := e.observation
    risk_level := jsOr e.riskLevel (some "low")
    image_url := newEntryImage upload now files e }

def insertStep (upload : String → String) (now : String)
    (files : List UploadedFile) (st : List Observation × Nat) (e : EditEntry) :
    (List Observation × Nat) × List DbOp :=
  let row := newRow upload now files st.2 e
  ((st.1 ++ [row], st.2 + 1), [DbOp.insertObs row])

/-- One iteration of the reconciler loop of `reportService.updateReport`
(lines 251–299): an entry whose truthy id is in `existingObsMap` (`emap`)
takes the update path (image: a freshly uploaded `image_<id>` file if
`newImage` is set and one matches, else the supplied URL, else the stored
URL; text and risk level fall back to the stored values), every other entry
takes the insert path. -/
def editStep (upload : String → String) (now : String)
    (files : List UploadedFile) (emap : List Observation)
    (st : List Observation × Nat) (e : EditEntry) :
    (List Observation × Nat) × List DbOp :=
  if truthy e.id then
    match findRow emap (e.id.getD "") with
    | some r =>
      let i := e.id.getD ""
      let base := jsOr e.imageUrl r.image_url
      let imageUrl :=
        if e.newImage && !files.isEmpty then
          match files.find? (fun f => f.fieldname == "image_" ++ i) with
          | some f => some (upload f.path)
          | none => base
        else base
      let o := jsOr e.observation r.observation
      let rl := jsOr e.riskLevel r.risk_level
      ((applyUpdate st.1 i o rl imageUrl, st.2), [DbOp.updateObs i o rl imageUrl])
    | none => insertStep upload now files st e
  else insertStep upload now files st e

/-- The reconciler loop over all edit entries, in entry order. -/
def runEdits (upload : String → String) (now : String)
    (files : List UploadedFile) (emap : List Observation) :
    List EditEntry → List Observation × Nat → (List Observation × Nat) × List DbOp
  | [], st => (st, [])
  | e :: es, st =>
    let s1 := editStep upload now files emap st e
    let s2 := runEdits upload now files emap es s1.1
    (s2.1, s1.2 ++ s2.2)

/-- One iteration of the deletion loop of `reportService.updateReport`
(lines 308–322): an id present in `existingObsMap` has its stored image
blob removed (when set) and its row deleted; other ids are ignored. -/
def deleteStep (emap : List Observation) (st : List Observation) (i : String) :
    List Observation × List DbOp :=
  match findRow emap i with
  | some r =>
    let blobOps := if truthy r.image_url then [DbOp.removeBlob (r.image_url.getD "")] else []
    (st.filter (fun o => !(o.id == i)), blobOps ++ [DbOp.deleteObs i])
  | none => (st, [])

/-- The deletion loop over `observationsToDelete`, in list order. -/
def runDeletes (emap : List Observation) :
    List String → List Observation → List Observation × List DbOp
  | [], st => (st, [])
  | i :: is, st =>
    let s1 := deleteStep emap st i
    let s2 := runDeletes emap is s1.1
    (s2.1, s1.2 ++ s2.2)

/-- The observation-processing phase of `reportService.updateReport`
(lines 234–324): when the edit list is non-empty, run the edit loop against
the pre-read map, then the deletion loop; when the edit list is empty the
whole block — deletions included — is skipped.  Returns the post-mutation
observation rows (the re-read) and the trace of issued operations. -/
def updateReportObs (upload : String → String) (now : String)
    (rows : List Observation) (entries : List EditEntry)
    (files : List UploadedFile) (toDelete : List String) :
    List Observation × List DbOp :=
  if entries.isEmpty then (rows, [])
  else
    let r1 := runEdits upload now files rows entries (rows, 0)
    let r2 := runDeletes rows toDelete r1.1.1
    (r2.1, r1.2 ++ r2.2)

/-- `reportService.updateReport`: fails with 404 when the report does not
exist or is not owned by the caller; otherwise runs the observation phase.
No other failure path exists in the observation-processing code (the
per-row database results inside the loop are discarded by the source). -/
def updateReport (reportFound : Bool) (upload : String → String) (now : String)
    (rows : List Observation) (entries : List EditEntry)
    (files : List UploadedFile) (toDelete : List String) :
    Except String (List Observation × List DbOp) :=
  if reportFound then .ok (updateReportObs upload now rows entries files toDelete)
  else .error "Report not found"

/-- Classifies an operation for ordering statements: deletions and blob
removals are phase 0, row updates phase 1, row inserts phase 2. -/
def opPhase : DbOp → Nat
  | .deleteObs _ => 0
  | .removeBlob _ => 0
  | .updateObs _ _ _ _ => 1
  | .insertObs _ => 2

/-- An operation issued by the edit loop (row update or insert). -/
def isEditOp : DbOp → Bool
  | .updateObs _ _ _ _ => true
  | .insertObs _ => true
  | _ => false

/-- An operation issued by the deletion loop (row delete or blob removal). -/
def isDeleteOp : DbOp → Bool
  | .deleteObs _ => true
  | .removeBlob _ => true
  | _ => false

/-- A list of naturals is nondecreasing. -/
def nondecreasing : List Nat → Bool
  | [] => true
  | [_] => true
  | a :: b :: t => a ≤ b && nondecreasing (b :: t)

/-- A submitted JSON/form value as it reaches the report handlers: a string,
a boolean, or absent. -/
inductive JsInput where
  | str (s : String)
  | bool (b : Bool)
  | missing
  deriving Repr, DecidableEq

/-- The `visit_confirmation` value persisted by `reportService.createReport`
(line 130): `visitConfirmation === 'true' || visitConfirmation === true`. -/
def visitConfirmationFlag (v : JsInput) : Bool :=
  (match v with | .str s => s == "true" | _ => false) ||
  (match v with | .bool b => b | _ => false)

/-- The fields of the `newReport` row built by `reportService.createReport`
(lines 121–132) that are computed rather than passed through verbatim. -/
structure NewReportRow where
  contact : String
  verification : String
  recommendations : String
  signature : String
  visit_confirmation : Bool
  status : String
  deriving Repr, DecidableEq

/-- The JavaScript `s || ''` defaulting used for optional text fields of a
new report. -/
def strOrEmpty (v : Option String) : String :=
  (jsOr v (some "")).getD ""

/-- Row construction of `reportService.createReport` (lines 121–132):
optional text fields default to `''`, `visit_confirmation` is the strict
comparison against `'true'`/`true`, `status` defaults to `'draft'` at
destructuring. -/
def buildNewReport (contact verification recommendations signature : Option String)
    (visitConfirmation : JsInput) (status : Option String) : NewReportRow :=
  { contact := strOrEmpty contact
    verification := strOrEmpty verification
    recommendations := strOrEmpty recommendations
    signature := strOrEmpty signature
    visit_confirmation := visitConfirmationFlag visitConfirmation
    status := status.getD "draft" }

/-- A stored report row, reduced to the columns the deletion path reads. -/
structure StoredReport where
  id : String
  userId : String
  deriving Repr, DecidableEq

/-- A stored observation row as read by the report deletion path. -/
structure StoredObservation where
  report_id : String
  image_url : Option String
  deriving Repr, DecidableEq

/-- The report-side database slice used by `deleteReport`. -/
structure ReportDb where
  reports : List StoredReport
  observations : List StoredObservation
  deriving Repr, DecidableEq

/-- `imageUtils.deleteImage` (lines 81–106): an absent/empty URL returns
`true` immediately; a storage error (the oracle `removeFails`) is logged
and reported as `false`; every path returns a boolean — the function never
throws. -/
def deleteImage (removeFails : String → Bool) (imageUrl : String) : Bool :=
  if imageUrl == "" then true
  else if removeFails imageUrl then false
  else true

/-- `reportService.deleteReport` (lines 336–361): 404 when the report is
absent or not owned; otherwise delete the report row (observations cascade),
then call `deleteImage` on each observation's stored image, discarding the
boolean results, and return `true`.  The discarded cleanup results are kept
in the embedding's output so that the effect of storage failures is visible. -/
def deleteReport (removeFails : String → Bool) (db : ReportDb)
    (reportId userId : String) : Except String (ReportDb × List Bool × Bool) :=
  match db.reports.find? (fun r => r.id == reportId && r.userId == userId) with
  | none => .error "Report not found"
  | some _ =>
    let db' : ReportDb :=
      { reports := db.reports.filter (fun r => !(r.id == reportId && r.userId == userId))
        observations := db.observations.filter (fun o => !(o.report_id == reportId)) }
    let cleanups :=
      (db.observations.filter (fun o => o.report_id == reportId)).filterMap
        (fun o => if truthy o.image_url
                  then some (deleteImage removeFails (o.image_url.getD ""))
                  else none)
    .ok (db', cleanups, true)

/-- A company row (table `companies`), with its server-assigned id embedded
as a natural number. -/
structure Company where
  id : Nat
  name : String
  cuit : String
  address : String
  industry : String
  deriving Repr, DecidableEq

/-- A user–company association row. -/
structure Association where
  userId : String
  companyId : Nat
  deriving Repr, DecidableEq

/-- The company-side database slice: company rows, association rows, and
the next server-assigned id. -/
structure CompanyDb where
  companies : List Company
  associations : List Association
  nextId : Nat
  deriving Repr, DecidableEq

/-- Modelled from the spec: `companyController.createCompany` — the module
`controllers/companyController.js` required by `companyRoutes.js` is not in
the repository snapshot (the legacy `services/companyService.js` present in
the tree is imported by nothing).  Per spec §4.2 and the route documentation
("Create a new company or associate with existing one by CUIT"): if a company
with the given tax id exists, the acting user is linked to it and the existing
row is returned unchanged (first writer's fields win); otherwise a new row is
inserted and the user linked to it. -/
def createCompany (db : CompanyDb) (userId : String)
    (name cuit address industry : String) : CompanyDb × Company :=
  match db.companies.find? (fun c => c.cuit == cuit) with
  | some c =>
    ({ db with associations := db.associations ++ [⟨userId, c.id⟩] }, c)
  | none =>
    let c : Company := ⟨db.nextId, name, cuit, address, industry⟩
    ({ companies := db.companies ++ [c]
       associations := db.associations ++ [⟨userId, c.id⟩]
       nextId := db.nextId + 1 }, c)

/-- Modelled from the spec: `companyController.removeCompanyAssociation` —
the module `controllers/companyController.js` required by `companyRoutes.js`
is not in the repository snapshot.  Per spec §6 and the route documentation
("Remove user's association with a company", "delete = remove association,
not the row"): 404 when the acting user has no association with the company;
otherwise remove exactly that user's association rows for that company,
leaving the company row in place. -/
def removeCompanyAssociation (db : CompanyDb) (userId : String)
    (companyId : Nat) : Except String CompanyDb :=
  if db.associations.any (fun a => a.userId == userId && a.companyId == companyId) then
    .ok { db with
          associations :=
            db.associations.filter
              (fun a => !(a.userId == userId && a.companyId == companyId)) }
  else .error "Company not found"


/-! ## Helper lemmas about row lookup -/

theorem patchRow_id (o rl iu : Option String) (r : Observation) :
    (patchRow o rl iu r).id = r.id := rfl

theorem findRow_eq_find? (rows : List Observation) (i : String) :
    findRow rows i = rows.find? (fun r => r.id == i) := by
  induction rows with
  | nil => rfl
  | cons a t ih =>
    by_cases h : (a.id == i) = true
    · simp [findRow, h]
    · simp only [Bool.not_eq_true] at h
      simp [findRow, h, ih]

theorem findRow_applyUpdate_ne (rows : List Observation) {i j : String}
    (o rl iu : Option String) (h : j ≠ i) :
    findRow (applyUpdate rows j o rl iu) i = findRow rows i := by
  induction rows with
  | nil => rfl
  | cons a t ih =>
    show findRow ((if a.id == j then patchRow o rl iu a else a) :: applyUpdate t j o rl iu) i
        = findRow (a :: t) i
    by_cases haj : (a.id == j) = true
    · have haj' : a.id = j := by simpa using haj
      have hai : ¬((a.id == i) = true) := by simp [haj', h]
      simp [findRow, haj, patchRow_id, hai, ih]
    · simp only [Bool.not_eq_true] at haj
      by_cases hai : (a.id == i) = true
      · simp [findRow, haj, hai]
      · simp only [Bool.not_eq_true] at hai
        simp [findRow, haj, hai, ih]

theorem findRow_applyUpdate_self (rows : List Observation) (i : String)
    (o rl iu : Option String) :
    findRow (applyUpdate rows i o rl iu) i = (findRow rows i).map (patchRow o rl iu) := by
  induction rows with
  | nil => rfl
  | cons a t ih =>
    show findRow ((if a.id == i then patchRow o rl iu a else a) :: applyUpdate t i o rl iu) i
        = ((findRow (a :: t) i).map (patchRow o rl iu))
    by_cases hai : (a.id == i) = true
    · simp [findRow, hai, patchRow_id]
    · simp only [Bool.not_eq_true] at hai
      simp [findRow, hai, ih]

theorem findRow_append (rows l2 : List Observation) (i : String)
    (h : (findRow rows i).isSome) :
    findRow (rows ++ l2) i = findRow rows i := by
  induction rows with
  | nil => simp [findRow] at h
  | cons a t ih =>
    by_cases hai : (a.id == i) = true
    · simp [findRow, hai]
    · simp only [Bool.not_eq_true] at hai
      have ht : (findRow t i).isSome := by simpa [findRow, hai] using h
      simp [findRow, hai, ih ht]

theorem findRow_filter_self (rows : List Observation) (i : String) :
    findRow (rows.filter (fun o => !(o.id == i))) i = none := by
  induction rows with
  | nil => rfl
  | cons a t ih =>
    by_cases hai : (a.id == i) = true
    · simp [List.filter_cons, hai, ih]
    · simp only [Bool.not_eq_true] at hai
      simp [List.filter_cons, findRow, hai, ih]

theorem findRow_filter_ne (rows : List Observation) {i k : String} (h : i ≠ k) :
    findRow (rows.filter (fun o => !(o.id == k))) i = findRow rows i := by
  induction rows with
  | nil => rfl
  | cons a t ih =>
    by_cases hak : (a.id == k) = true
    · have hak' : a.id = k := by simpa using hak
      have hai : ¬((a.id == i) = true) := by simp [hak']; exact fun hik => h hik.symm
      simp only [Bool.not_eq_true] at hai
      simp [List.filter_cons, findRow, hak, hai, ih]
    · simp only [Bool.not_eq_true] at hak
      by_cases hai : (a.id == i) = true
      · simp [List.filter_cons, findRow, hak, hai]
      · simp only [Bool.not_eq_true] at hai
        simp [List.filter_cons, findRow, hak, hai, ih]

theorem findRow_filter_none (rows : List Observation) (q : Observation → Bool)
    (i : String) (h : findRow rows i = none) :
    findRow (rows.filter q) i = none := by
  induction rows with
  | nil => rfl
  | cons a t ih =>
    by_cases hai : (a.id == i) = true
    · simp [findRow, hai] at h
    · simp only [Bool.not_eq_true] at hai
      have ht : findRow t i = none := by simpa [findRow, hai] using h
      by_cases hq : q a = true
      · simp [List.filter_cons, findRow, hq, hai, ih ht]
      · simp only [Bool.not_eq_true] at hq
        simp [List.filter_cons, hq, ih ht]

/-! ## Trace structure lemmas -/

theorem editStep_ops_edit (upload : String → String) (now : String)
    (files : List UploadedFile) (emap : List Observation)
    (st : List Observation × Nat) (e : EditEntry) :
    ∀ op ∈ (editStep upload now files emap st e).2, isEditOp op = true := by
  intro op hop
  unfold editStep at hop
  by_cases ht : truthy e.id
  · rw [if_pos ht] at hop
    cases hf : findRow emap (e.id.getD "") with
    | some r =>
      rw [hf] at hop
      simp at hop
      subst hop
      rfl
    | none =>
      rw [hf] at hop
      simp [insertStep] at hop
      subst hop
      rfl
  · rw [if_neg ht] at hop
    simp [insertStep] at hop
    subst hop
    rfl

theorem runEdits_ops_edit (upload : String → String) (now : String)
    (files : List UploadedFile) (emap : List Observation) (es : List EditEntry) :
    ∀ st, ∀ op ∈ (runEdits upload now files emap es st).2, isEditOp op = true := by
  induction es with
  | nil =>
    intro st op hop
    simp [runEdits] at hop
  | cons e es ih =>
    intro st op hop
    simp only [runEdits, List.mem_append] at hop
    rcases hop with h | h
    · exact editStep_ops_edit upload now files emap st e op h
    · exact ih _ op h

theorem deleteStep_ops_delete (emap st : List Observation) (k : String) :
    ∀ op ∈ (deleteStep emap st k).2, isDeleteOp op = true := by
  intro op hop
  unfold deleteStep at hop
  cases hf : findRow emap k with
  | none =>
    rw [hf] at hop
    simp at hop
  | some r =>
    rw [hf] at hop
    by_cases him : truthy r.image_url
    · simp [him] at hop
      rcases hop with h | h <;> (subst h; rfl)
    · simp [him] at hop
      subst hop
      rfl

theorem runDeletes_ops_delete (emap : List Observation) (todel : List String) :
    ∀ st, ∀ op ∈ (runDeletes emap todel st).2, isDeleteOp op = true := by
  induction todel with
  | nil =>
    intro st op hop
    simp [runDeletes] at hop
  | cons k ks ih =>
    intro st op hop
    simp only [runDeletes, List.mem_append] at hop
    rcases hop with h | h
    · exact deleteStep_ops_delete emap st k op h
    · exact ih _ op h

theorem editStep_update_matched (upload : String → String) (now : String)
    (files : List UploadedFile) (emap : List Observation)
    (st : List Observation × Nat) (e : EditEntry)
    (j : String) (o rl iu : Option String)
    (hop : DbOp.updateObs j o rl iu ∈ (editStep upload now files emap st e).2) :
    (findRow emap j).isSome := by
  unfold editStep at hop
  by_cases ht : truthy e.id
  · rw [if_pos ht] at hop
    cases hf : findRow emap (e.id.getD "") with
    | some r =>
      rw [hf] at hop
      simp at hop
      rw [hop.1, hf]
      rfl
    | none =>
      rw [hf] at hop
      simp [insertStep] at hop
  · rw [if_neg ht] at hop
    simp [insertStep] at hop

theorem runEdits_update_matched (upload : String → String) (now : String)
    (files : List UploadedFile) (emap : List Observation) (es : List EditEntry)
    (j : String) (o rl iu : Option String) :
    ∀ st, DbOp.updateObs j o rl iu ∈ (runEdits upload now files emap es st).2 →
      (findRow emap j).isSome := by
  induction es with
  | nil =>
    intro st hop
    simp [runEdits] at hop
  | cons e es ih =>
    intro st hop
    simp only [runEdits, List.mem_append] at hop
    rcases hop with h | h
    · exact editStep_update_matched upload now files emap st e j o rl iu h
    · exact ih _ h

theorem runEdits_insert_for_unmatched (upload : String → String) (now : String)
    (files : List UploadedFile) (emap : List Observation) (es : List EditEntry)
    (e : EditEntry) (hmem : e ∈ es)
    (hun : truthy e.id = false ∨ findRow emap (e.id.getD "") = none) :
    ∀ st, ∃ k, DbOp.insertObs (newRow upload now files k e) ∈
      (runEdits upload now files emap es st).2 := by
  induction es with
  | nil => cases hmem
  | cons e' es ih =>
    intro st
    rcases List.mem_cons.1 hmem with he | he
    · subst he
      refine ⟨st.2, ?_⟩
      simp only [runEdits, List.mem_append]
      left
      unfold editStep
      rcases hun with h | h
      · rw [if_neg (by simp [h])]
        simp [insertStep]
      · by_cases ht : truthy e.id
        · rw [if_pos ht, h]
          simp [insertStep]
        · rw [if_neg ht]
          simp [insertStep]
    · obtain ⟨k, hk⟩ := ih he (editStep upload now files emap st e').1
      refine ⟨k, ?_⟩
      simp only [runEdits, List.mem_append]
      right
      exact hk

theorem runEdits_update_for_matched (upload : String → String) (now : String)
    (files : List UploadedFile) (emap : List Observation) (es : List EditEntry)
    (e : EditEntry) (i : String) (r : Observation)
    (hmem : e ∈ es) (he : e.id = some i) (hi : ¬(i = ""))
    (hr : findRow emap i = some r) :
    ∀ st, ∃ o rl iu, DbOp.updateObs i o rl iu ∈
      (runEdits upload now files emap es st).2 := by
  induction es with
  | nil => cases hmem
  | cons e' es ih =>
    intro st
    rcases List.mem_cons.1 hmem with heq | hmem'
    · subst heq
      have ht : truthy e.id = true := by simp [he, truthy, hi]
      have hget : e.id.getD "" = i := by simp [he]
      have hstep : ∃ o rl iu,
          (editStep upload now files emap st e).2 = [DbOp.updateObs i o rl iu] := by
        unfold editStep
        rw [if_pos ht, hget, hr]
        exact ⟨_, _, _, rfl⟩
      obtain ⟨o, rl, iu, hstep⟩ := hstep
      refine ⟨o, rl, iu, ?_⟩
      simp only [runEdits, List.mem_append]
      left
      rw [hstep]
      simp
    · obtain ⟨o, rl, iu, h⟩ := ih hmem' (editStep upload now files emap st e').1
      refine ⟨o, rl, iu, ?_⟩
      simp only [runEdits, List.mem_append]
      right
      exact h

/-! ## Preservation lemmas for the stored image of an existing row -/

theorem editStep_preserves_image (upload : String → String) (now : String)
    (files : List UploadedFile) (emap : List Observation)
    (i : String) (r : Observation) (e : EditEntry)
    (hi : ¬(i = "")) (hr : findRow emap i = some r)
    (hneu : e.id = some i → e.newImage = false ∧ truthy e.imageUrl = false)
    (st : List Observation × Nat)
    (hst : ∃ r', findRow st.1 i = some r' ∧ r'.image_url = r.image_url) :
    ∃ r', findRow (editStep upload now files emap st e).1.1 i = some r'
      ∧ r'.image_url = r.image_url := by
  obtain ⟨r', hr', hir'⟩ := hst
  have hsome : (findRow st.1 i).isSome := by rw [hr']; rfl
  unfold editStep
  by_cases ht : truthy e.id
  · rw [if_pos ht]
    cases hf : findRow emap (e.id.getD "") with
    | some r0 =>
      by_cases hj : e.id.getD "" = i
      · have heid : e.id = some i := by
          cases hid : e.id with
          | none => rw [hid] at ht; simp [truthy] at ht
          | some s =>
            rw [hid] at hj
            simp at hj
            exact congrArg some hj
        obtain ⟨hnew, himg⟩ := hneu heid
        have hr0 : r0 = r := by
          rw [hj, hr] at hf
          exact (Option.some.injEq _ _ ▸ hf).symm
        subst hr0
        have himageUrl :
            (if e.newImage && !files.isEmpty then
              match files.find? (fun f => f.fieldname == "image_" ++ e.id.getD "") with
              | some f => some (upload f.path)
              | none => jsOr e.imageUrl r0.image_url
             else jsOr e.imageUrl r0.image_url) = r0.image_url := by
          rw [hnew]
          simp [jsOr, himg]
        simp only
        rw [himageUrl, hj]
        rw [findRow_applyUpdate_self st.1 i _ _ _, hr']
        exact ⟨_, rfl, rfl⟩
      · simp only
        rw [findRow_applyUpdate_ne st.1 _ _ _ hj, hr']
        exact ⟨r', rfl, hir'⟩
    | none =>
      unfold insertStep
      simp only
      rw [findRow_append st.1 _ i hsome, hr']
      exact ⟨r', rfl, hir'⟩
  · rw [if_neg ht]
    unfold insertStep
    simp only
    rw [findRow_append st.1 _ i hsome, hr']
    exact ⟨r', rfl, hir'⟩

theorem runEdits_preserves_image (upload : String → String) (now : String)
    (files : List UploadedFile) (emap : List Observation)
    (i : String) (r : Observation) (es : List EditEntry)
    (hi : ¬(i = "")) (hr : findRow emap i = some r)
    (hneu : ∀ e ∈ es, e.id = some i → e.newImage = false ∧ truthy e.imageUrl = false) :
    ∀ st, (∃ r', findRow st.1 i = some r' ∧ r'.image_url = r.image_url) →
      ∃ r', findRow (runEdits upload now files emap es st).1.1 i = some r'
        ∧ r'.image_url = r.image_url := by
  induction es with
  | nil =>
    intro st hst
    simpa [runEdits] using hst
  | cons e es ih =>
    intro st hst
    have h1 := editStep_preserves_image upload now files emap i r e hi hr
      (hneu e (List.mem_cons_self e es)) st hst
    have h2 := ih (fun e' he' => hneu e' (List.mem_cons_of_mem e he'))
      (editStep upload now files emap st e).1 h1
    simpa [runEdits] using h2

/-! ## Deletion-phase lemmas -/

theorem deleteStep_preserves_ne (emap st : List Observation) {i k : String}
    (h : i ≠ k) : findRow (deleteStep emap st k).1 i = findRow st i := by
  unfold deleteStep
  cases findRow emap k with
  | none => rfl
  | some r => exact findRow_filter_ne st h

theorem runDeletes_preserves_not_mem (emap : List Observation)
    (todel : List String) (i : String) (hnot : i ∉ todel) :
    ∀ st, findRow (runDeletes emap todel st).1 i = findRow st i := by
  induction todel with
  | nil => intro st; simp [runDeletes]
  | cons k ks ih =>
    intro st
    have hik : i ≠ k := fun h => hnot (h ▸ List.mem_cons_self k ks)
    have hks : i ∉ ks := fun h => hnot (List.mem_cons_of_mem k h)
    simp only [runDeletes]
    rw [ih hks, deleteStep_preserves_ne emap st hik]

theorem deleteStep_preserves_none (emap st : List Observation) (k i : String)
    (h : findRow st i = none) : findRow (deleteStep emap st k).1 i = none := by
  unfold deleteStep
  cases findRow emap k with
  | none => exact h
  | some r => exact findRow_filter_none st _ i h

theorem runDeletes_preserves_none (emap : List Observation) (todel : List String)
    (i : String) : ∀ st, findRow st i = none →
      findRow (runDeletes emap todel st).1 i = none := by
  induction todel with
  | nil => intro st h; simpa [runDeletes] using h
  | cons k ks ih =>
    intro st h
    simp only [runDeletes]
    exact ih _ (deleteStep_preserves_none emap st k i h)

theorem runDeletes_deletes (emap : List Observation) (todel : List String)
    (i : String) (r : Observation) (hmem : i ∈ todel)
    (hr : findRow emap i = some r) :
    ∀ st, findRow (runDeletes emap todel st).1 i = none := by
  induction todel with
  | nil => cases hmem
  | cons k ks ih =>
    intro st
    rcases List.mem_cons.1 hmem with heq | hmem'
    · subst heq
      simp only [runDeletes]
      refine runDeletes_preserves_none emap ks i _ ?_
      unfold deleteStep
      rw [hr]
      exact findRow_filter_self st i
    · simp only [runDeletes]
      exact ih hmem' _

theorem deleteStep_blob_own_image (emap st : List Observation) (k : String)
    (u : String) (hop : DbOp.removeBlob u ∈ (deleteStep emap st k).2) :
    ∃ r, findRow emap k = some r ∧ r.image_url = some u := by
  unfold deleteStep at hop
  cases hf : findRow emap k with
  | none => rw [hf] at hop; simp at hop
  | some r =>
    rw [hf] at hop
    replace hop : DbOp.removeBlob u ∈
        (if truthy r.image_url then [DbOp.removeBlob (r.image_url.getD "")] else [])
          ++ [DbOp.deleteObs k] := hop
    refine ⟨r, rfl, ?_⟩
    cases hiu : r.image_url with
    | none =>
      rw [hiu] at hop
      simp [truthy] at hop
    | some s =>
      rw [hiu] at hop
      by_cases hs : s = ""
      · subst hs
        simp [truthy] at hop
      · have : u = s := by simpa [truthy, hs] using hop
        rw [this]

theorem runDeletes_blob_own_image (emap : List Observation) (todel : List String)
    (u : String) : ∀ st, DbOp.removeBlob u ∈ (runDeletes emap todel st).2 →
      ∃ k r, k ∈ todel ∧ findRow emap k = some r ∧ r.image_url = some u := by
  induction todel with
  | nil => intro st hop; simp [runDeletes] at hop
  | cons k ks ih =>
    intro st hop
    simp only [runDeletes, List.mem_append] at hop
    rcases hop with h | h
    · obtain ⟨r, hfr, hiu⟩ := deleteStep_blob_own_image emap st k u h
      exact ⟨k, r, List.mem_cons_self k ks, hfr, hiu⟩
    · obtain ⟨k', r, hk', hfr, hiu⟩ := ih _ h
      exact ⟨k', r, List.mem_cons_of_mem k hk', hfr, hiu⟩

/-! ## Claim theorems -/

/-- C10: for every create-report request, the persisted `visit_confirmation`
flag is `true` exactly when the submitted value is the boolean `true` or the
exact string `"true"`; every other submitted value (for example `"True"`,
`"1"`, `"yes"`, or a missing field) persists `false`. -/
theorem c10_visit_confirmation_strict
    (contact verification recommendations signature : Option String)
    (status : Option String) (v : JsInput) :
    (buildNewReport contact verification recommendations signature v status).visit_confirmation
      = true ↔ (v = JsInput.bool true ∨ v = JsInput.str "true") := by
  cases v with
  | str s =>
    simp only [buildNewReport, visitConfirmationFlag]
    constructor
    · intro h
      right
      have : s = "true" := by simpa using h
      rw [this]
    · intro h
      rcases h with h | h
      · cases h
      · have : s = "true" := by cases h; rfl
        simp [this]
  | bool b => cases b <;> simp [buildNewReport, visitConfirmationFlag]
  | missing => simp [buildNewReport, visitConfirmationFlag]

/-- C9: deleting a report never aborts on image-blob cleanup failures: for
every storage-failure oracle (including one where every removal fails), once
the report is found the operation deletes the report row and returns
success. -/
theorem c9_delete_report_survives_blob_failures
    (removeFails : String → Bool) (db : ReportDb) (reportId userId : String)
    (rep : StoredReport)
    (hfound : db.reports.find? (fun r => r.id == reportId && r.userId == userId)
      = some rep) :
    ∃ cleanups db', deleteReport removeFails db reportId userId = .ok (db', cleanups, true)
      ∧ db'.reports.find? (fun r => r.id == reportId && r.userId == userId) = none := by
  refine ⟨(db.observations.filter (fun o => o.report_id == reportId)).filterMap
      (fun o => if truthy o.image_url
                then some (deleteImage removeFails (o.image_url.getD "")) else none),
    { reports := db.reports.filter (fun r => !(r.id == reportId && r.userId == userId))
      observations := db.observations.filter (fun o => !(o.report_id == reportId)) },
    ?_, ?_⟩
  · unfold deleteReport
    rw [hfound]
  · refine List.find?_eq_none.2 (fun x hx => ?_)
    have h2 := (List.mem_filter.1 hx).2
    simp at h2 ⊢
    tauto

/-- C9 witness: a concrete database where the single observation's blob
removal fails (`removeFails` is constantly `true`), yet the report deletion
succeeds and the row is gone. -/
theorem c9_witness :
    ∃ cleanups db',
      deleteReport (fun _ => true)
        ⟨[⟨"r1", "u1"⟩], [⟨"r1", some "http://img/u1/x.png"⟩]⟩ "r1" "u1"
        = .ok (db', cleanups, true)
      ∧ db'.reports.find? (fun r => r.id == "r1" && r.userId == "u1") = none :=
  c9_delete_report_survives_blob_failures (fun _ => true)
    ⟨[⟨"r1", "u1"⟩], [⟨"r1", some "http://img/u1/x.png"⟩]⟩ "r1" "u1"
    ⟨"r1", "u1"⟩ (by decide)

/-- C7: company creation is idempotent on the tax id.  When a company with
the requested `cuit` already exists, no new company row is produced, the
acting user gains an association to the existing company, and the returned
company is the original row (so its name is the first writer's name, not the
second caller's input).  The handler is modelled from the spec because
`controllers/companyController.js` is not in the repository snapshot. -/
theorem c7_create_company_idempotent_on_cuit
    (db : CompanyDb) (userId name cuit address industry : String) (c : Company)
    (hexists : db.companies.find? (fun x => x.cuit == cuit) = some c) :
    (createCompany db userId name cuit address industry).1.companies = db.companies
    ∧ (⟨userId, c.id⟩ : Association)
        ∈ (createCompany db userId name cuit address industry).1.associations
    ∧ (createCompany db userId name cuit address industry).2 = c := by
  unfold createCompany
  rw [hexists]
  exact ⟨rfl, by simp, rfl⟩

/-- C7 witness: a second creator using the same cuit but a different name
gets the original company back, no duplicate row, and an association. -/
theorem c7_witness :
    (createCompany ⟨[⟨0, "Orig", "20-1", "addr", "ind"⟩], [⟨"u1", 0⟩], 1⟩
        "u2" "Second" "20-1" "other" "other").1.companies
      = [⟨0, "Orig", "20-1", "addr", "ind"⟩]
    ∧ (⟨"u2", 0⟩ : Association)
        ∈ (createCompany ⟨[⟨0, "Orig", "20-1", "addr", "ind"⟩], [⟨"u1", 0⟩], 1⟩
            "u2" "Second" "20-1" "other" "other").1.associations
    ∧ (createCompany ⟨[⟨0, "Orig", "20-1", "addr", "ind"⟩], [⟨"u1", 0⟩], 1⟩
        "u2" "Second" "20-1" "other" "other").2
      = ⟨0, "Orig", "20-1", "addr", "ind"⟩ :=
  c7_create_company_idempotent_on_cuit _ "u2" "Second" "20-1" "other" "other"
    ⟨0, "Orig", "20-1", "addr", "ind"⟩ (by decide)

/-- C8: a DELETE on a company by an associated user removes only that user's
association rows for that company: the company rows are untouched, no
association of the acting user with that company survives, and every other
association (other users, or the same user with other companies) survives.
The handler is modelled from the spec because
`controllers/companyController.js` is not in the repository snapshot. -/
theorem c8_delete_company_removes_only_association
    (db : CompanyDb) (userId : String) (companyId : Nat)
    (hassoc : db.associations.any
      (fun a => a.userId == userId && a.companyId == companyId) = true) :
    ∃ db', removeCompanyAssociation db userId companyId = .ok db'
      ∧ db'.companies = db.companies
      ∧ (∀ a ∈ db'.associations, ¬(a.userId = userId ∧ a.companyId = companyId))
      ∧ (∀ a ∈ db.associations,
          ¬(a.userId = userId ∧ a.companyId = companyId) → a ∈ db'.associations) := by
  refine ⟨{ db with
      associations := db.associations.filter
        (fun a => !(a.userId == userId && a.companyId == companyId)) }, ?_, rfl, ?_, ?_⟩
  · unfold removeCompanyAssociation
    rw [if_pos hassoc]
  · intro a ha
    have h2 := (List.mem_filter.1 ha).2
    simp at h2
    tauto
  · intro a ha hnot
    refine List.mem_filter.2 ⟨ha, ?_⟩
    simp
    tauto

/-- C8 witness: removing user `u`'s association with company 5 keeps the
company row, keeps user `v`'s association, and leaves `u` unassociated. -/
theorem c8_witness :
    ∃ db', removeCompanyAssociation
        ⟨[⟨5, "N", "c", "a", "i"⟩], [⟨"u", 5⟩, ⟨"v", 5⟩], 6⟩ "u" 5 = .ok db'
      ∧ db'.companies = [⟨5, "N", "c", "a", "i"⟩]
      ∧ (∀ a ∈ db'.associations, ¬(a.userId = "u" ∧ a.companyId = 5))
      ∧ (∀ a ∈ ([⟨"u", 5⟩, ⟨"v", 5⟩] : List Association),
          ¬(a.userId = "u" ∧ a.companyId = 5) → a ∈ db'.associations) :=
  c8_delete_company_removes_only_association
    ⟨[⟨5, "N", "c", "a", "i"⟩], [⟨"u", 5⟩, ⟨"v", 5⟩], 6⟩ "u" 5 (by decide)

/-- C1: an edit entry carrying no id, or an id not present in the existing
observation set, is treated as an insert: the call still succeeds, an insert
operation carrying the entry's content (text, risk level defaulting to
`low`, resolved image) is issued for it, and no update operation is ever
issued for an id outside the existing set. -/
theorem c1_unmatched_entry_is_insert
    (upload : String → String) (now : String) (rows : List Observation)
    (entries : List EditEntry) (files : List UploadedFile) (toDelete : List String)
    (e : EditEntry) (hmem : e ∈ entries)
    (hun : truthy e.id = false ∨ findRow rows (e.id.getD "") = none) :
    (∃ res, updateReport true upload now rows entries files toDelete = .ok res)
    ∧ (∃ k, DbOp.insertObs (newRow upload now files k e)
        ∈ (updateReportObs upload now rows entries files toDelete).2)
    ∧ (∀ j o rl iu, findRow rows j = none →
        DbOp.updateObs j o rl iu ∉
          (updateReportObs upload now rows entries files toDelete).2) := by
  have hne : entries.isEmpty = false := by
    cases entries with
    | nil => cases hmem
    | cons a t => rfl
  refine ⟨⟨_, rfl⟩, ?_, ?_⟩
  · unfold updateReportObs
    simp only [hne, Bool.false_eq_true, if_false]
    obtain ⟨k, hk⟩ := runEdits_insert_for_unmatched upload now files rows entries e hmem hun (rows, 0)
    exact ⟨k, List.mem_append.2 (Or.inl hk)⟩
  · intro j o rl iu hnone hop
    unfold updateReportObs at hop
    simp only [hne, Bool.false_eq_true, if_false] at hop
    rcases List.mem_append.1 hop with h | h
    · have := runEdits_update_matched upload now files rows entries j o rl iu _ h
      rw [hnone] at this
      simp at this
    · have := runDeletes_ops_delete rows toDelete _ _ h
      simp [isDeleteOp] at this

/-- C1 witness: a single entry with an id (`"ghost"`) absent from the
existing set is inserted, the call succeeds, and no update is issued for
any absent id. -/
theorem c1_witness :
    (∃ res, updateReport true (fun p => p) "t"
        [⟨"a", some "o", some "low", none⟩]
        [⟨some "ghost", some "x", none, none, false, none⟩] [] [] = .ok res)
    ∧ (∃ k, DbOp.insertObs (newRow (fun p => p) "t" [] k
          ⟨some "ghost", some "x", none, none, false, none⟩)
        ∈ (updateReportObs (fun p => p) "t" [⟨"a", some "o", some "low", none⟩]
            [⟨some "ghost", some "x", none, none, false, none⟩] [] []).2)
    ∧ (∀ j o rl iu, findRow [⟨"a", some "o", some "low", none⟩] j = none →
        DbOp.updateObs j o rl iu ∉
          (updateReportObs (fun p => p) "t" [⟨"a", some "o", some "low", none⟩]
            [⟨some "ghost", some "x", none, none, false, none⟩] [] []).2) :=
  c1_unmatched_entry_is_insert (fun p => p) "t"
    [⟨"a", some "o", some "low", none⟩]
    [⟨some "ghost", some "x", none, none, false, none⟩] [] []
    ⟨some "ghost", some "x", none, none, false, none⟩
    (by simp) (Or.inr (by decide))

/-- C2: an existing-id edit entry that does not signal a new image and
supplies no image URL never clears the stored image: provided no other
entry of the call targets the same id with an image change and the id is
not in the deletion list, the post-update row still carries the pre-update
stored URL. -/
theorem c2_image_never_cleared
    (upload : String → String) (now : String) (rows : List Observation)
    (entries : List EditEntry) (files : List UploadedFile) (toDelete : List String)
    (e : EditEntry) (i : String) (r : Observation)
    (hmem : e ∈ entries) (heid : e.id = some i) (hi : ¬(i = ""))
    (hr : findRow rows i = some r)
    (hneu : ∀ e' ∈ entries, e'.id = some i →
      e'.newImage = false ∧ truthy e'.imageUrl = false)
    (hnd : i ∉ toDelete) :
    ∃ r', findRow (updateReportObs upload now rows entries files toDelete).1 i
        = some r' ∧ r'.image_url = r.image_url := by
  have hne : entries.isEmpty = false := by
    cases entries with
    | nil => cases hmem
    | cons a t => rfl
  unfold updateReportObs
  simp only [hne, Bool.false_eq_true, if_false]
  obtain ⟨r', hr', hiu⟩ := runEdits_preserves_image upload now files rows i r entries hi hr
    hneu (rows, 0) ⟨r, hr, rfl⟩
  rw [runDeletes_preserves_not_mem rows toDelete i hnd _]
  exact ⟨r', hr', hiu⟩

/-- C2 witness: an update call that edits only the text of the existing
observation `"a"` (no `newImage`, no supplied URL) leaves its stored image
URL `"img"` in place. -/
theorem c2_witness :
    ∃ r', findRow (updateReportObs (fun p => p) "t"
        [⟨"a", some "told", some "low", some "img"⟩]
        [⟨some "a", some "tnew", none, none, false, none⟩] [] []).1 "a"
      = some r' ∧ r'.image_url = some "img" :=
  c2_image_never_cleared (fun p => p) "t"
    [⟨"a", some "told", some "low", some "img"⟩]
    [⟨some "a", some "tnew", none, none, false, none⟩] [] []
    ⟨some "a", some "tnew", none, none, false, none⟩ "a"
    ⟨"a", some "told", some "low", some "img"⟩
    (by simp) rfl (by decide) (by decide) (by decide) (by decide)

/-- C3 counterexample: with an empty edit-entry list, a deletion id that is
present in the current observation set is NOT deleted — the whole
observation block (deletions included) is skipped, so the row survives the
post-update read, contradicting "regardless of whether the edit-entry list
mentions it or is empty". -/
theorem c3_counterexample :
    findRow (updateReportObs (fun p => p) "t"
      [⟨"a", some "o", some "low", some "u"⟩] [] [] ["a"]).1 "a"
      = some ⟨"a", some "o", some "low", some "u"⟩ := by decide

/-- C3 (amended): provided the edit-entry list is non-empty, every deletion
id present in the current observation set has its row absent from the
post-update read, and every image blob removed during the call is the own
stored image of some deleted observation (never a different observation's
image). -/
theorem c3_deletion_applied_when_edits_nonempty
    (upload : String → String) (now : String) (rows : List Observation)
    (entries : List EditEntry) (files : List UploadedFile) (toDelete : List String)
    (i : String) (r : Observation)
    (hne : entries ≠ []) (hmem : i ∈ toDelete) (hr : findRow rows i = some r) :
    findRow (updateReportObs upload now rows entries files toDelete).1 i = none
    ∧ (∀ u, DbOp.removeBlob u ∈ (updateReportObs upload now rows entries files toDelete).2 →
        ∃ j rj, j ∈ toDelete ∧ findRow rows j = some rj ∧ rj.image_url = some u) := by
  have hne' : entries.isEmpty = false := by
    cases entries with
    | nil => exact absurd rfl hne
    | cons a t => rfl
  unfold updateReportObs
  simp only [hne', Bool.false_eq_true, if_false]
  constructor
  · exact runDeletes_deletes rows toDelete i r hmem hr _
  · intro u hu
    rcases List.mem_append.1 hu with h | h
    · have := runEdits_ops_edit upload now files rows entries _ _ h
      simp [isEditOp] at this
    · exact runDeletes_blob_own_image rows toDelete u _ h

/-- C3 witness: with a non-empty edit list, deleting `"b"` removes its row,
and the only blob removed is `"b"`'s own stored image. -/
theorem c3_witness :
    findRow (updateReportObs (fun p => p) "t"
        [⟨"a", some "o", some "low", some "ua"⟩, ⟨"b", some "p", some "low", some "ub"⟩]
        [⟨some "a", some "x", none, none, false, none⟩] [] ["b"]).1 "b" = none
    ∧ (∀ u, DbOp.removeBlob u ∈ (updateReportObs (fun p => p) "t"
          [⟨"a", some "o", some "low", some "ua"⟩, ⟨"b", some "p", some "low", some "ub"⟩]
          [⟨some "a", some "x", none, none, false, none⟩] [] ["b"]).2 →
        ∃ j rj, j ∈ ["b"]
          ∧ findRow [⟨"a", some "o", some "low", some "ua"⟩,
              ⟨"b", some "p", some "low", some "ub"⟩] j = some rj
          ∧ rj.image_url = some u) :=
  c3_deletion_applied_when_edits_nonempty (fun p => p) "t"
    [⟨"a", some "o", some "low", some "ua"⟩, ⟨"b", some "p", some "low", some "ub"⟩]
    [⟨some "a", some "x", none, none, false, none⟩] [] ["b"]
    "b" ⟨"b", some "p", some "low", some "ub"⟩
    (by simp) (by simp) (by decide)

/-- C4 counterexample: an update call whose deletion ids contain `"obs-1"`
while an edit entry also carries id `"obs-1"` is NOT rejected: the call
returns success, the entry is applied as an update, and the deletion then
removes the row — contradicting "is rejected as a validation error". -/
theorem c4_counterexample :
    updateReport true (fun p => p) "t"
      [⟨"obs-1", some "old", some "low", none⟩]
      [⟨some "obs-1", some "x", none, none, false, none⟩] [] ["obs-1"]
      = .ok ([], [DbOp.updateObs "obs-1" (some "x") (some "low") none,
                  DbOp.deleteObs "obs-1"]) := by rfl

/-- C4 (amended): an update call combining a deletion id with an
existing-id edit entry for the same id is accepted, not rejected: the call
succeeds, an update operation for the id is issued during the edit phase,
and the deletion afterwards removes the row, so the post-update read does
not contain it (update-then-delete, not delete-plus-insert and not an
error). -/
theorem c4_overlap_is_update_then_delete
    (upload : String → String) (now : String) (rows : List Observation)
    (entries : List EditEntry) (files : List UploadedFile) (toDelete : List String)
    (e : EditEntry) (i : String) (r : Observation)
    (hmem : e ∈ entries) (heid : e.id = some i) (hi : ¬(i = ""))
    (hr : findRow rows i = some r) (hdel : i ∈ toDelete) :
    (∃ res, updateReport true upload now rows entries files toDelete = .ok res)
    ∧ (∃ o rl iu, DbOp.updateObs i o rl iu
        ∈ (updateReportObs upload now rows entries files toDelete).2)
    ∧ findRow (updateReportObs upload now rows entries files toDelete).1 i = none := by
  have hne : entries.isEmpty = false := by
    cases entries with
    | nil => cases hmem
    | cons a t => rfl
  refine ⟨⟨_, rfl⟩, ?_, ?_⟩
  · unfold updateReportObs
    simp only [hne, Bool.false_eq_true, if_false]
    obtain ⟨o, rl, iu, h⟩ :=
      runEdits_update_for_matched upload now files rows entries e i r hmem heid hi hr (rows, 0)
    exact ⟨o, rl, iu, List.mem_append.2 (Or.inl h)⟩
  · unfold updateReportObs
    simp only [hne, Bool.false_eq_true, if_false]
    exact runDeletes_deletes rows toDelete i r hdel hr _

/-- C4 amended witness: the concrete overlap scenario from the claim
(`deletionIds = ["obs-1"]`, entry `{id: "obs-1", observation: "x"}`). -/
theorem c4_witness :
    (∃ res, updateReport true (fun p => p) "t"
        [⟨"obs-1", some "old", some "low", none⟩]
        [⟨some "obs-1", some "x", none, none, false, none⟩] [] ["obs-1"] = .ok res)
    ∧ (∃ o rl iu, DbOp.updateObs "obs-1" o rl iu
        ∈ (updateReportObs (fun p => p) "t"
            [⟨"obs-1", some "old", some "low", none⟩]
            [⟨some "obs-1", some "x", none, none, false, none⟩] [] ["obs-1"]).2)
    ∧ findRow (updateReportObs (fun p => p) "t"
        [⟨"obs-1", some "old", some "low", none⟩]
        [⟨some "obs-1", some "x", none, none, false, none⟩] [] ["obs-1"]).1 "obs-1"
      = none :=
  c4_overlap_is_update_then_delete (fun p => p) "t"
    [⟨"obs-1", some "old", some "low", none⟩]
    [⟨some "obs-1", some "x", none, none, false, none⟩] [] ["obs-1"]
    ⟨some "obs-1", some "x", none, none, false, none⟩ "obs-1"
    ⟨"obs-1", some "old", some "low", none⟩
    (by simp) rfl (by decide) (by decide) (by simp)

/-- C5 counterexample: the claimed order "all deletions first, then all
updates, then all inserts" would make the phases (delete = 0, blob
removal = 0, update = 1, insert = 2) of the issued operation trace
nondecreasing; on a call with one existing-id edit, one new entry and one
deletion the trace is update, insert, delete — phases 1, 2, 0 — which is
not nondecreasing. -/
theorem c5_counterexample :
    nondecreasing (List.map opPhase (updateReportObs (fun p => p) "t"
      [⟨"a", some "o", some "low", none⟩, ⟨"b", some "p", some "low", none⟩]
      [⟨some "a", some "x", none, none, false, none⟩,
       ⟨none, some "y", none, none, false, none⟩]
      [] ["b"]).2) = false := by decide

/-- C5 (amended): within one update call the reconciler issues all edit
operations first — an update or an insert per entry, interleaved in entry
order — and all deletions (with their blob removals) after every edit. -/
theorem c5_edits_before_deletes
    (upload : String → String) (now : String) (rows : List Observation)
    (entries : List EditEntry) (files : List UploadedFile) (toDelete : List String) :
    ∃ t1 t2, (updateReportObs upload now rows entries files toDelete).2 = t1 ++ t2
      ∧ (∀ op ∈ t1, isEditOp op = true)
      ∧ (∀ op ∈ t2, isDeleteOp op = true) := by
  by_cases hne : entries.isEmpty
  · refine ⟨[], [], ?_, by simp, by simp⟩
    unfold updateReportObs
    rw [if_pos hne]
    rfl
  · have hne' : entries.isEmpty = false := by
      cases h : entries.isEmpty
      · rfl
      · exact absurd h hne
    refine ⟨(runEdits upload now files rows entries (rows, 0)).2,
      (runDeletes rows toDelete
        (runEdits upload now files rows entries (rows, 0)).1.1).2, ?_, ?_, ?_⟩
    · unfold updateReportObs
      simp only [hne', Bool.false_eq_true, if_false]
    · exact runEdits_ops_edit upload now files rows entries _
    · exact runDeletes_ops_delete rows toDelete _

/-- C6 counterexample: a new entry without a `tempId`, paired by the client
with an uploaded file named `image_new_1`, is inserted with a `null` image:
the code searches for `image_new_<server timestamp>` (here
`"1700000000000"`), which cannot match a client-chosen field name, so the
uploaded image is silently dropped — contradicting "a per-entry distinct
default still correlates the entry with its file, so an uploaded image is
never silently dropped". -/
theorem c6_counterexample :
    (updateReportObs (fun p => "url-" ++ p) "1700000000000"
      [] [⟨none, some "x", none, none, false, none⟩]
      [⟨"image_new_1", "pic.jpg"⟩] []).1
      = [⟨"new-0", some "x", some "low", none⟩] := by decide

/-- C6 (amended): a new-entry edit that supplies a `tempId` and is paired
with an uploaded file named `image_new_<tempId>` is inserted with that
file's uploaded URL; when the client omits `tempId`, the lookup key falls
back to the server's current timestamp and does not correlate with any
client-named file, so the image is dropped. -/
theorem c6_tempid_image_attached
    (upload : String → String) (now : String) (rows : List Observation)
    (entries : List EditEntry) (files : List UploadedFile) (toDelete : List String)
    (e : EditEntry) (t : String) (f : UploadedFile)
    (hmem : e ∈ entries)
    (hun : truthy e.id = false ∨ findRow rows (e.id.getD "") = none)
    (htid : e.tempId = some t) (htne : ¬(t = ""))
    (hfile : files.find? (fun x => x.fieldname == "image_new_" ++ t) = some f) :
    ∃ k, DbOp.insertObs (newRow upload now files k e)
        ∈ (updateReportObs upload now rows entries files toDelete).2
      ∧ (newRow upload now files k e).image_url = some (upload f.path) := by
  have hne : entries.isEmpty = false := by
    cases entries with
    | nil => cases hmem
    | cons a t' => rfl
  have hfne : files.isEmpty = false := by
    cases files with
    | nil => simp at hfile
    | cons a t' => rfl
  have himg : newEntryImage upload now files e = some (upload f.path) := by
    unfold newEntryImage
    have hkey : (jsOr e.tempId (some now)).getD now = t := by
      simp [jsOr, htid, truthy, htne]
    rw [hkey, hfne]
    simp only [Bool.not_false, if_true]
    rw [hfile]
  unfold updateReportObs
  simp only [hne, Bool.false_eq_true, if_false]
  obtain ⟨k, hk⟩ :=
    runEdits_insert_for_unmatched upload now files rows entries e hmem hun (rows, 0)
  refine ⟨k, List.mem_append.2 (Or.inl hk), ?_⟩
  unfold newRow
  rw [himg]

/-- C6 amended witness: a new entry with `tempId = "7"` and a file named
`image_new_7` gets the file's uploaded URL on the inserted row. -/
theorem c6_witness :
    ∃ k, DbOp.insertObs (newRow (fun p => "url-" ++ p) "t"
          [⟨"image_new_7", "pic.jpg"⟩] k
          ⟨none, some "x", none, none, false, some "7"⟩)
        ∈ (updateReportObs (fun p => "url-" ++ p) "t" []
            [⟨none, some "x", none, none, false, some "7"⟩]
            [⟨"image_new_7", "pic.jpg"⟩] []).2
      ∧ (newRow (fun p => "url-" ++ p) "t" [⟨"image_new_7", "pic.jpg"⟩] k
          ⟨none, some "x", none, none, false, some "7"⟩).image_url
        = some "url-pic.jpg" :=
  c6_tempid_image_attached (fun p => "url-" ++ p) "t" []
    [⟨none, some "x", none, none, false, some "7"⟩]
    [⟨"image_new_7", "pic.jpg"⟩] []
    ⟨none, some "x", none, none, false, some "7"⟩ "7" ⟨"image_new_7", "pic.jpg"⟩
    (by simp) (Or.inl rfl) rfl (by decide) (by decide)
